import Mathlib

set_option maxRecDepth 20000

/-!
Verification of the text-to-packet encoder of `idotmatrix/modules/text.py`
(class `Text`).  The encoder rasterizes a string into fixed 16x32 monochrome
blocks, packs each block into 64 bytes, frames the result into a packet with
a CRC-32 header, and slices the packet into transport chunks.

Bytes are modelled as `Nat` values (a valid byte is `< 256`); byte strings as
`List Nat`; a PIL monochrome image as a pixel function `Nat → Nat → Nat`
(the code masks every pixel with `&&& 1`).  Fallible Python code (exceptions
raised by `bytearray`, `int.to_bytes`, or indexing an empty list) is modelled
with `Option`.
-/

namespace Idotmatrix

/-- The per-glyph separator marker `b"\x05\xff\xff\xff"` (class attribute
`Text.separator`). -/
def separator : List Nat := [5, 255, 255, 255]

/-- `bytearray.count(b"\x05\xff\xff\xff")`: number of non-overlapping
occurrences of the 4-byte separator pattern, scanning greedily left to
right (Python `bytes.count` semantics), as used for `num_chars` in
`_buildStringPacket`. -/
def countSep : List Nat → Nat
  | a :: b :: c :: d :: rest =>
    if a = 5 ∧ b = 255 ∧ c = 255 ∧ d = 255 then countSep rest + 1
    else countSep (b :: c :: d :: rest)
  | _ => 0

/-- Whether the 4-byte separator pattern occurs anywhere in a byte string
(as a contiguous substring). -/
def containsSep : List Nat → Bool
  | a :: b :: c :: d :: rest =>
    if a = 5 ∧ b = 255 ∧ c = 255 ∧ d = 255 then true
    else containsSep (b :: c :: d :: rest)
  | _ => false

/-- The serialization loop at the end of `_StringToBitmaps`:
`for bitmap in results: bytestream = bytestream + b"\x05\xff\xff\xff" + bitmap`. -/
def serializeBlocks (blocks : List (List Nat)) : List Nat :=
  blocks.foldl (fun acc b => acc ++ separator ++ b) []

/-- Python `value.to_bytes(n, byteorder="little")` (for `value < 256 ^ n`;
callers guard the `OverflowError` case). -/
def toBytesLE : Nat → Nat → List Nat
  | 0, _ => []
  | n + 1, v => (v &&& 255) :: toBytesLE n (v >>> 8)

/-- Little-endian decoding of a byte string back to a number (used to state
what value a multi-byte field holds). -/
def fromBytesLE : List Nat → Nat
  | [] => 0
  | b :: rest => b + 256 * fromBytesLE rest

/-- One bit-step of the CRC-32 remainder computation (reflected polynomial
`0xEDB88320`), as performed by `zlib.crc32`. -/
def crcBit (c : Nat) : Nat :=
  if c &&& 1 = 1 then (c >>> 1) ^^^ 0xEDB88320 else c >>> 1

/-- Feed one byte into the CRC-32 state. -/
def crcByte (c b : Nat) : Nat :=
  (List.range 8).foldl (fun st _ => crcBit st) (c ^^^ (b &&& 255))

/-- `zlib.crc32(data)` with the default initial value: init `0xFFFFFFFF`,
per-byte update, final complement.  (CRC-32, IEEE 802.3, reflected.) -/
def crc32 (data : List Nat) : Nat :=
  (data.foldl crcByte 0xFFFFFFFF) ^^^ 0xFFFFFFFF

/-- The display-configuration arguments of `_buildStringPacket`. -/
structure TextConfig where
  text_mode : Nat
  speed : Nat
  text_color_mode : Nat
  text_color : Nat × Nat × Nat
  text_bg_mode : Nat
  text_bg_color : Nat × Nat × Nat

/-- The ten configuration values in the order they are spliced into the
`bytearray` literal of `_buildStringPacket`. -/
def configBytes (cfg : TextConfig) : List Nat :=
  [cfg.text_mode, cfg.speed, cfg.text_color_mode,
   cfg.text_color.1, cfg.text_color.2.1, cfg.text_color.2.2,
   cfg.text_bg_mode,
   cfg.text_bg_color.1, cfg.text_bg_color.2.1, cfg.text_bg_color.2.2]

/-- The `bytearray([...])` literal building `text_metadata` (count bytes
still the `0, 0` placeholder).  `bytearray` raises `ValueError` when any
argument is outside `0..255`; that error branch is the `none` case. -/
def metadataBytearray (cfg : TextConfig) : Option (List Nat) :=
  if (configBytes cfg).all (fun v => v < 256) then
    some ([0, 0, 0, 1] ++ configBytes cfg)
  else none

/-- `text_metadata[:2] = num_chars.to_bytes(2, byteorder="little")` applied
after the `bytearray` literal; `to_bytes` raises `OverflowError` when
`num_chars ≥ 2 ^ 16`. -/
def buildTextMetadata (cfg : TextConfig) (num_chars : Nat) : Option (List Nat) :=
  match metadataBytearray cfg with
  | none => none
  | some md =>
    if num_chars < 2 ^ 16 then some (toBytesLE 2 num_chars ++ md.drop 2)
    else none

/-- `_buildStringPacket`: metadata, body, 16-byte header with total length,
body length and CRC-32 fields (all little-endian).  The `none` cases are the
`ValueError` / `OverflowError` raises of `bytearray` and `to_bytes`. -/
def buildStringPacket (cfg : TextConfig) (text_bitmaps : List Nat) : Option (List Nat) :=
  match buildTextMetadata cfg (countSep text_bitmaps) with
  | none => none
  | some text_metadata =>
    let packet := text_metadata ++ text_bitmaps
    if packet.length + 16 < 2 ^ 16 ∧ packet.length < 2 ^ 32 then
      some (toBytesLE 2 (packet.length + 16) ++ [3, 0, 0] ++
            toBytesLE 4 packet.length ++ toBytesLE 4 (crc32 packet) ++
            [0, 0, 12] ++ packet)
    else none

/-- `_splitIntoChunks`:
`[data[i : i + chunk_size] for i in range(0, len(data), chunk_size)]`.
`range(0, n, step)` has `⌈n / step⌉` elements; `data[i : i + s]` is
`(data.drop i).take s`.  (Python raises `ValueError` for step 0; the
embedding is only used with `chunk_size ≥ 1`.) -/
def splitIntoChunks (data : List Nat) (chunk_size : Nat) : List (List Nat) :=
  (List.range' 0 ((data.length + chunk_size - 1) / chunk_size) chunk_size).map
    (fun i => (data.drop i).take chunk_size)

/-- `_ConstructBitMap`: the nested loop over `y in range(32)`, `x in
range(16)` carrying the current `byte` and the accumulated `bitmap`; the
byte is reset at `x % 8 == 0`, accumulates `(pixel & 1) << (x % 8)`, and is
appended at `x % 8 == 7`. -/
def ConstructBitMap (image : Nat → Nat → Nat) : List Nat :=
  ((List.range 32).foldl (fun st y =>
    (List.range 16).foldl (fun st x =>
      let byte := if x % 8 = 0 then 0 else st.1
      let byte := byte ||| ((image x y &&& 1) <<< (x % 8))
      if x % 8 = 7 then (byte, st.2 ++ [byte]) else (byte, st.2))
      st)
    ((0 : Nat), ([] : List Nat))).2

/-- The `while left < padded_width` loop of `_StringToBitmaps`: crop the
window `(left, 0, left+16, 32)` and pack it; `left` advances by 16, so the
loop runs `⌈w / 16⌉` times (the fuel argument). -/
def stringBlocksLoop (image : Nat → Nat → Nat) : Nat → Nat → List (List Nat)
  | 0, _ => []
  | n + 1, left =>
    ConstructBitMap (fun x y => image (left + x) y) ::
      stringBlocksLoop image n (left + 16)

/-- All 16x32 blocks cropped from a strip of width `w`. -/
def stringBlocks (image : Nat → Nat → Nat) (w : Nat) : List (List Nat) :=
  stringBlocksLoop image ((w + 15) / 16) 0

/-- `padded_width = total_width + (-total_width % 16)` (Python `%` on a
negative operand returns the nonnegative remainder, like `Int.emod` with a
positive modulus). -/
def paddedWidth (total_width : Nat) : Nat :=
  total_width + ((-(total_width : Int)) % 16).toNat

/-- The composite strip built by the paste loop of `_StringToBitmaps`:
`full_image` starts as an all-zero image of height 32; cell `i` (a `W`x32
character image, abstract because its pixels come from PIL's `draw.text`)
is pasted at `(i * W, y0)`.  Pixels outside every pasted cell stay 0;
PIL crops a paste that extends outside the canvas. -/
def fullImage (cells : Nat → Nat → Nat → Nat) (n W : Nat) (y0 : Int)
    (x y : Nat) : Nat :=
  if x < n * W ∧ y0 ≤ (y : Int) ∧ (y : Int) < y0 + 32 then
    cells (x / W) (x % W) ((y : Int) - y0).toNat
  else 0

/-- `_StringToBitmaps` for a text of length `n`, with the font-derived cell
metrics (`char_width` from the reference-glyph bbox, `char_height` from
ascent+descent) as parameters and the PIL-rendered per-character cells
abstract.  For the empty string, `char_images[0]` raises `IndexError`
(the `none` case), before any packet framing. -/
def StringToBitmaps (cells : Nat → Nat → Nat → Nat)
    (n char_width char_height : Nat) : Option (List Nat) :=
  if n = 0 then none
  else
    let total_width := n * char_width
    let y0 : Int := 16 - (char_height : Int) / 2
    some (serializeBlocks
      (stringBlocks (fullImage cells n char_width y0) (paddedWidth total_width)))

/-- The chunks actually handed to `conn.send` by the `for chunk in chunks`
loop: sending stops at the first failing `send` (the raised exception
aborts the loop). -/
def sentChunks (send : List Nat → Bool) : List (List Nat) → List (List Nat)
  | [] => []
  | c :: rest => if send c then c :: sentChunks send rest else []

/-- `setMode`: build the packet (rasterize, then frame), connect, send the
512-byte chunks in order, and return the packet; any failure anywhere is
caught by the `except BaseException` handler, which returns `False`
(modelled as `none`).  The transport is abstracted by a connect outcome and
a per-chunk send outcome. -/
def setMode (cfg : TextConfig) (cells : Nat → Nat → Nat → Nat)
    (n char_width char_height : Nat)
    (connectOk : Bool) (send : List Nat → Bool) : Option (List Nat) :=
  match StringToBitmaps cells n char_width char_height with
  | none => none
  | some bm =>
    match buildStringPacket cfg bm with
    | none => none
    | some data =>
      if connectOk then
        if (splitIntoChunks data 512).all send then some data else none
      else none

/-! ## Basic lemmas: little-endian encoding -/

theorem toBytesLE_length : ∀ (n v : Nat), (toBytesLE n v).length = n
  | 0, _ => rfl
  | n + 1, v => by simp [toBytesLE, toBytesLE_length n]

theorem fromBytesLE_toBytesLE : ∀ (n v : Nat), v < 256 ^ n →
    fromBytesLE (toBytesLE n v) = v
  | 0, v, h => by
    simp only [pow_zero] at h
    simp [toBytesLE, fromBytesLE]
    omega
  | n + 1, v, h => by
    have h8 : v >>> 8 = v / 256 := by
      rw [Nat.shiftRight_eq_div_pow]
    have hm : v &&& 255 = v % 256 := by
      have := Nat.and_pow_two_sub_one_eq_mod v 8
      norm_num at this
      exact this
    have hlt : v >>> 8 < 256 ^ n := by
      rw [h8]
      rw [pow_succ] at h
      exact Nat.div_lt_iff_lt_mul (by norm_num) |>.mpr h
    show fromBytesLE ((v &&& 255) :: toBytesLE n (v >>> 8)) = v
    rw [fromBytesLE, fromBytesLE_toBytesLE n _ hlt, h8, hm]
    omega

/-! ## Basic lemmas: CRC-32 stays below `2 ^ 32` -/

theorem crcBit_lt {c : Nat} (h : c < 2 ^ 32) : crcBit c < 2 ^ 32 := by
  have hs : c >>> 1 < 2 ^ 32 := by
    rw [Nat.shiftRight_eq_div_pow]
    exact lt_of_le_of_lt (Nat.div_le_self c 2) h
  unfold crcBit
  split
  · exact Nat.xor_lt_two_pow hs (by norm_num)
  · exact hs

theorem crcByte_lt {c : Nat} (b : Nat) (h : c < 2 ^ 32) : crcByte c b < 2 ^ 32 := by
  have hinit : c ^^^ (b &&& 255) < 2 ^ 32 := by
    refine Nat.xor_lt_two_pow h ?_
    calc b &&& 255 ≤ 255 := Nat.and_le_right
    _ < 2 ^ 32 := by norm_num
  unfold crcByte
  generalize c ^^^ (b &&& 255) = st at hinit
  have : ∀ (l : List Nat) (st : Nat), st < 2 ^ 32 →
      l.foldl (fun st _ => crcBit st) st < 2 ^ 32 := by
    intro l
    induction l with
    | nil => intro st hst; exact hst
    | cons a t ih => intro st hst; exact ih _ (crcBit_lt hst)
  exact this _ _ hinit

theorem crc32_lt (data : List Nat) : crc32 data < 2 ^ 32 := by
  unfold crc32
  have : ∀ (l : List Nat) (st : Nat), st < 2 ^ 32 →
      l.foldl crcByte st < 2 ^ 32 := by
    intro l
    induction l with
    | nil => intro st hst; exact hst
    | cons a t ih => intro st hst; exact ih _ (crcByte_lt a hst)
  exact Nat.xor_lt_two_pow (this data _ (by norm_num)) (by norm_num)

/-! ## Basic lemmas: block serialization -/

theorem serializeBlocks_foldl (blocks : List (List Nat)) : ∀ acc : List Nat,
    blocks.foldl (fun acc b => acc ++ separator ++ b) acc =
      acc ++ blocks.foldl (fun acc b => acc ++ separator ++ b) [] := by
  induction blocks with
  | nil => intro acc; simp
  | cons b bs ih =>
    intro acc
    simp only [List.foldl_cons]
    rw [ih (acc ++ separator ++ b), ih (List.nil ++ separator ++ b)]
    simp [List.append_assoc]

theorem serializeBlocks_nil : serializeBlocks [] = [] := rfl

theorem serializeBlocks_cons (b : List Nat) (bs : List (List Nat)) :
    serializeBlocks (b :: bs) = separator ++ b ++ serializeBlocks bs := by
  unfold serializeBlocks
  simp only [List.foldl_cons]
  rw [serializeBlocks_foldl]
  simp [List.append_assoc]

theorem serializeBlocks_shape (bs : List (List Nat)) :
    serializeBlocks bs = [] ∨ ∃ t, serializeBlocks bs = 5 :: t := by
  cases bs with
  | nil => exact Or.inl rfl
  | cons b bs =>
    refine Or.inr ⟨255 :: 255 :: 255 :: (b ++ serializeBlocks bs), ?_⟩
    rw [serializeBlocks_cons]
    simp [separator]

theorem serializeBlocks_length (bs : List (List Nat))
    (h : ∀ b ∈ bs, b.length = 64) :
    (serializeBlocks bs).length = 68 * bs.length := by
  induction bs with
  | nil => rfl
  | cons b t ih =>
    rw [serializeBlocks_cons]
    have hb : b.length = 64 := h b (by simp)
    have ht := ih (fun x hx => h x (by simp [hx]))
    simp [separator, hb, ht]
    ring

/-! ## Basic lemmas: counting separator occurrences -/

theorem countSep_sep (l : List Nat) :
    countSep (5 :: 255 :: 255 :: 255 :: l) = countSep l + 1 := by
  simp [countSep]

theorem countSep_short (l : List Nat) (h : l.length < 4) : countSep l = 0 := by
  match l with
  | [] => rfl
  | [a] => rfl
  | [a, b] => rfl
  | [a, b, c] => rfl
  | a :: b :: c :: d :: t => simp at h; omega

theorem containsSep_tail {a : Nat} {l : List Nat}
    (h : containsSep (a :: l) = false) : containsSep l = false := by
  match l with
  | [] => rfl
  | [x] => rfl
  | [x, y] => rfl
  | x :: y :: z :: t =>
    rw [containsSep] at h
    split at h
    · simp at h
    · exact h

/-- Key counting lemma: a byte string that nowhere contains the separator
pattern contributes nothing to the count, provided what follows starts with
byte `5` (as every serialized separator does) or is empty — the pattern
`05 FF FF FF` can then not straddle the boundary. -/
theorem countSep_append {b : List Nat} (rest : List Nat)
    (hb : containsSep b = false)
    (hr : rest = [] ∨ ∃ t, rest = 5 :: t) :
    countSep (b ++ rest) = countSep rest := by
  induction b with
  | nil => simp
  | cons a b' ih =>
    have hb' : containsSep b' = false := containsSep_tail hb
    rcases hxyz : b' ++ rest with _ | ⟨x, _ | ⟨y, _ | ⟨z, t⟩⟩⟩
    · -- b' ++ rest = []  →  everything is too short to contain the pattern
      rcases List.append_eq_nil.mp hxyz with ⟨hb0, hr0⟩
      subst hb0; subst hr0
      rfl
    · have hlen := congrArg List.length hxyz
      simp at hlen
      rw [countSep_short rest (by omega), countSep_short _ (by simp; omega)]
    · have hlen := congrArg List.length hxyz
      simp at hlen
      rw [countSep_short rest (by omega), countSep_short _ (by simp; omega)]
    · -- b' ++ rest = x :: y :: z :: t  →  the head window is a full window
      have hcons : (a :: b') ++ rest = a :: x :: y :: z :: t := by
        simp [hxyz]
      rw [hcons, countSep]
      have hcond : ¬(a = 5 ∧ x = 255 ∧ y = 255 ∧ z = 255) := by
        rintro ⟨ha, hx, hy, hz⟩
        rcases b' with _ | ⟨p, _ | ⟨q, _ | ⟨r, s⟩⟩⟩
        · -- window spills into rest at its first byte, which is 5, not 255
          rcases hr with h0 | ⟨t', ht'⟩
          · subst h0; simp at hxyz
          · subst ht'
            simp only [List.nil_append] at hxyz
            injection hxyz with h1 h2
            omega
        · rcases hr with h0 | ⟨t', ht'⟩
          · subst h0; simp at hxyz
          · subst ht'
            simp only [List.cons_append, List.nil_append] at hxyz
            injection hxyz with h1 h2
            injection h2 with h2 h3
            omega
        · rcases hr with h0 | ⟨t', ht'⟩
          · subst h0; simp at hxyz
          · subst ht'
            simp only [List.cons_append, List.nil_append] at hxyz
            injection hxyz with h1 h2
            injection h2 with h2 h3
            injection h3 with h3 h4
            omega
        · -- the window lies inside a :: b', contradicting containsSep = false
          simp at hxyz
          simp only [containsSep] at hb
          have hcnd : a = 5 ∧ p = 255 ∧ q = 255 ∧ r = 255 := by
            refine ⟨ha, ?_, ?_, ?_⟩ <;> omega
          rw [if_pos hcnd] at hb
          simp at hb
      rw [if_neg hcond, ← hxyz]
      exact ih hb'

/-- With no separator occurrence inside any block, the greedy substring
count over the serialized stream equals the number of blocks. -/
theorem countSep_serializeBlocks (blocks : List (List Nat))
    (h : ∀ b ∈ blocks, containsSep b = false) :
    countSep (serializeBlocks blocks) = blocks.length := by
  induction blocks with
  | nil => rfl
  | cons b bs ih =>
    rw [serializeBlocks_cons]
    have hshape : separator ++ b ++ serializeBlocks bs =
        5 :: 255 :: 255 :: 255 :: (b ++ serializeBlocks bs) := by
      simp [separator]
    rw [hshape, countSep_sep,
        countSep_append (serializeBlocks bs) (h b (by simp))
          (serializeBlocks_shape bs),
        ih (fun x hx => h x (by simp [hx]))]
    simp

/-! ## Packet framing lemmas -/

theorem metadataBytearray_some {cfg : TextConfig} {md : List Nat}
    (h : metadataBytearray cfg = some md) :
    md = [0, 0, 0, 1] ++ configBytes cfg ∧
      (configBytes cfg).all (fun v => v < 256) = true := by
  unfold metadataBytearray at h
  split at h
  · exact ⟨(Option.some.inj h).symm, by assumption⟩
  · simp at h

theorem buildTextMetadata_some {cfg : TextConfig} {nc : Nat} {md : List Nat}
    (h : buildTextMetadata cfg nc = some md) :
    md = toBytesLE 2 nc ++ [0, 1] ++ configBytes cfg ∧ nc < 2 ^ 16 ∧
      (configBytes cfg).all (fun v => v < 256) = true := by
  unfold buildTextMetadata at h
  split at h
  · simp at h
  · next md' heq =>
    split at h
    · obtain ⟨hmd', hall⟩ := metadataBytearray_some heq
      refine ⟨?_, by assumption, hall⟩
      rw [← Option.some.inj h, hmd']
      simp
    · simp at h

theorem packetFields (T L C : Nat) (body p : List Nat)
    (hp : p = toBytesLE 2 T ++ [3, 0, 0] ++ toBytesLE 4 L ++ toBytesLE 4 C ++
      [0, 0, 12] ++ body) :
    p.take 2 = toBytesLE 2 T ∧ (p.drop 5).take 4 = toBytesLE 4 L ∧
    (p.drop 9).take 4 = toBytesLE 4 C ∧ p.drop 16 = body ∧
    p.length = 16 + body.length := by
  subst hp
  simp only [toBytesLE, List.cons_append, List.nil_append, List.append_assoc]
  refine ⟨?_, ?_, ?_, ?_, ?_⟩ <;> simp [List.take_succ_cons, List.drop_succ_cons]
  omega

/-- The success normal form of `_buildStringPacket`. -/
theorem buildStringPacket_some {cfg : TextConfig} {bm p : List Nat}
    (hp : buildStringPacket cfg bm = some p) :
    ∃ md : List Nat,
      buildTextMetadata cfg (countSep bm) = some md ∧
      md = toBytesLE 2 (countSep bm) ++ [0, 1] ++ configBytes cfg ∧
      md.length = 14 ∧ countSep bm < 2 ^ 16 ∧
      (md ++ bm).length + 16 < 2 ^ 16 ∧ (md ++ bm).length < 2 ^ 32 ∧
      p = toBytesLE 2 ((md ++ bm).length + 16) ++ [3, 0, 0] ++
          toBytesLE 4 (md ++ bm).length ++ toBytesLE 4 (crc32 (md ++ bm)) ++
          [0, 0, 12] ++ (md ++ bm) := by
  simp only [buildStringPacket] at hp
  split at hp
  · simp at hp
  · next md heq =>
    obtain ⟨hmd, hnc, hall⟩ := buildTextMetadata_some heq
    split at hp
    · next hguard =>
      refine ⟨md, heq, hmd, ?_, hnc, hguard.1, hguard.2, (Option.some.inj hp).symm⟩
      rw [hmd]
      simp [toBytesLE_length, configBytes]
    · simp at hp

/-! ## Claim C2: header length and checksum fields -/

/-- C2: for every packet `_buildStringPacket` produces, the 2-byte
little-endian field at `[0:2]` holds 16 (the header length) plus the body
length, the 4-byte little-endian field at `[5:9]` holds the body length
(metadata plus bitmap stream), and the 4-byte little-endian field at
`[9:13]` holds the CRC-32 of that same body, which is exactly `p.drop 16`. -/
theorem C2_header_fields {cfg : TextConfig} {bm p : List Nat}
    (hp : buildStringPacket cfg bm = some p) :
    ∃ md, buildTextMetadata cfg (countSep bm) = some md ∧
      fromBytesLE (p.take 2) = 16 + (md ++ bm).length ∧
      fromBytesLE ((p.drop 5).take 4) = (md ++ bm).length ∧
      fromBytesLE ((p.drop 9).take 4) = crc32 (md ++ bm) ∧
      p.drop 16 = md ++ bm := by
  obtain ⟨md, heq, hmd, hlen14, hnc, hT, hL, hp'⟩ := buildStringPacket_some hp
  obtain ⟨f1, f2, f3, f4, f5⟩ := packetFields _ _ _ _ _ hp'
  refine ⟨md, heq, ?_, ?_, ?_, f4⟩
  · rw [f1, fromBytesLE_toBytesLE 2 _ (by omega)]
    omega
  · rw [f2, fromBytesLE_toBytesLE 4 _ (by omega)]
  · rw [f3, fromBytesLE_toBytesLE 4 _ (by have := crc32_lt (md ++ bm); omega)]

/-- Configuration with `setMode`'s default display values. -/
def cfg0 : TextConfig := ⟨1, 95, 1, (255, 0, 0), 0, (0, 255, 0)⟩

/-- Configuration with display mode 200 (outside the enumerated 0-8). -/
def cfg200 : TextConfig := ⟨200, 95, 1, (255, 0, 0), 0, (0, 255, 0)⟩

/-- Configuration with display mode 300 (not a byte). -/
def cfgBig : TextConfig := ⟨300, 95, 1, (255, 0, 0), 0, (0, 255, 0)⟩

/-- Witness for C2 at the default configuration and an empty bitmap
stream. -/
theorem C2_header_fields_witness :
    buildStringPacket cfg0 [] = some ((buildStringPacket cfg0 []).getD []) ∧
    (∃ md, buildTextMetadata cfg0 (countSep []) = some md ∧
      fromBytesLE (((buildStringPacket cfg0 []).getD []).take 2) =
        16 + (md ++ []).length ∧
      fromBytesLE ((((buildStringPacket cfg0 []).getD []).drop 5).take 4) =
        (md ++ []).length ∧
      fromBytesLE ((((buildStringPacket cfg0 []).getD []).drop 9).take 4) =
        crc32 (md ++ []) ∧
      ((buildStringPacket cfg0 []).getD []).drop 16 = md ++ []) :=
  ⟨by rfl, C2_header_fields (by rfl)⟩

/-! ## Claim C7: metadata layout and per-block separators -/

/-- C7: the 14 metadata bytes at offsets `[16:30]` of every produced packet
are the 2-byte little-endian glyph count, a zero byte, a fixed `1`, the
display-mode byte, the speed byte, the foreground color-mode byte, 3
foreground RGB bytes, the background color-mode byte and 3 background RGB
bytes; and the serialized bitmap stream puts the fixed 4-byte separator
`05 FF FF FF` before every block. -/
theorem C7_metadata_layout {cfg : TextConfig} {bm p : List Nat}
    (hp : buildStringPacket cfg bm = some p) :
    ((p.drop 16).take 14 = toBytesLE 2 (countSep bm) ++
        [0, 1, cfg.text_mode, cfg.speed, cfg.text_color_mode,
         cfg.text_color.1, cfg.text_color.2.1, cfg.text_color.2.2,
         cfg.text_bg_mode, cfg.text_bg_color.1, cfg.text_bg_color.2.1,
         cfg.text_bg_color.2.2] ∧
      (toBytesLE 2 (countSep bm)).length = 2 ∧
      ((p.drop 16).take 14).length = 14) ∧
    ∀ blocks : List (List Nat),
      serializeBlocks blocks = (blocks.map (fun b => separator ++ b)).flatten := by
  obtain ⟨md, heq, hmd, hlen14, hnc, hT, hL, hp'⟩ := buildStringPacket_some hp
  obtain ⟨f1, f2, f3, f4, f5⟩ := packetFields _ _ _ _ _ hp'
  constructor
  · have htake : (p.drop 16).take 14 = md := by
      rw [f4, List.take_left' hlen14]
    refine ⟨?_, toBytesLE_length 2 _, by rw [htake]; exact hlen14⟩
    rw [htake, hmd]
    simp [configBytes]
  · intro blocks
    induction blocks with
    | nil => rfl
    | cons b bs ih => rw [serializeBlocks_cons, ih]; simp

/-- Witness for C7 at the default configuration and an empty bitmap
stream. -/
theorem C7_metadata_layout_witness :
    buildStringPacket cfg0 [] = some ((buildStringPacket cfg0 []).getD []) ∧
    (((((buildStringPacket cfg0 []).getD []).drop 16).take 14 =
        toBytesLE 2 (countSep []) ++
        [0, 1, cfg0.text_mode, cfg0.speed, cfg0.text_color_mode,
         cfg0.text_color.1, cfg0.text_color.2.1, cfg0.text_color.2.2,
         cfg0.text_bg_mode, cfg0.text_bg_color.1, cfg0.text_bg_color.2.1,
         cfg0.text_bg_color.2.2] ∧
      (toBytesLE 2 (countSep [])).length = 2 ∧
      ((((buildStringPacket cfg0 []).getD []).drop 16).take 14).length = 14) ∧
    ∀ blocks : List (List Nat),
      serializeBlocks blocks = (blocks.map (fun b => separator ++ b)).flatten) :=
  ⟨by rfl, C7_metadata_layout (by rfl)⟩

/-! ## Claim C10: no range validation of configuration values -/

/-- C10: the metadata `bytearray` constructor performs no validation
against the enumerated option sets — any configuration value below 256 is
emitted verbatim (display mode 200 included), while a value of 256 or more
makes the construction fail; under the precondition that all configuration
values are bytes, the failure branch is unreachable. -/
theorem C10_no_range_validation (cfg : TextConfig) :
    ((configBytes cfg).all (fun v => v < 256) = true →
      metadataBytearray cfg = some ([0, 0, 0, 1] ++ configBytes cfg)) ∧
    ((configBytes cfg).all (fun v => v < 256) = false →
      metadataBytearray cfg = none) := by
  constructor <;> intro h <;> simp [metadataBytearray, h]

/-- Witness for C10: display mode 200 (not one of the documented modes 0-8)
is emitted verbatim; display mode 300 makes construction fail. -/
theorem C10_no_range_validation_witness :
    metadataBytearray cfg200 =
      some [0, 0, 0, 1, 200, 95, 1, 255, 0, 0, 0, 0, 255, 0] ∧
    metadataBytearray cfgBig = none :=
  ⟨(C10_no_range_validation cfg200).1 (by decide),
   (C10_no_range_validation cfgBig).2 (by decide)⟩

/-! ## Transport chunker lemmas -/

theorem splitIntoChunks_nil {cs : Nat} (h : 1 ≤ cs) : splitIntoChunks [] cs = [] := by
  unfold splitIntoChunks
  have h0 : (cs - 1) / cs = 0 := Nat.div_eq_of_lt (by omega)
  simp [h0]

theorem splitIntoChunks_cons {data : List Nat} {cs : Nat} (h : 1 ≤ cs)
    (hd : data ≠ []) :
    splitIntoChunks data cs = data.take cs :: splitIntoChunks (data.drop cs) cs := by
  have hlen : 1 ≤ data.length := List.length_pos.mpr hd
  have hn : (data.length + cs - 1) / cs =
      ((data.drop cs).length + cs - 1) / cs + 1 := by
    rw [List.length_drop]
    have e1 : data.length + cs - 1 = (data.length - 1) + cs := by omega
    rw [e1, Nat.add_div_right _ h]
    rcases le_or_lt cs data.length with hc | hc
    · have e2 : data.length - cs + cs - 1 = data.length - 1 := by omega
      rw [e2]
    · have e2 : data.length - cs = 0 := by omega
      rw [e2]
      rw [Nat.div_eq_of_lt (by omega), Nat.div_eq_of_lt (by omega)]
  unfold splitIntoChunks
  rw [hn, List.range'_succ]
  simp only [List.map_cons, List.drop_zero]
  congr 1
  have hshift : List.range' (0 + cs) (((data.drop cs).length + cs - 1) / cs) cs =
      (List.range' 0 (((data.drop cs).length + cs - 1) / cs) cs).map
        (fun x => cs + x) := by
    rw [List.map_add_range']
    simp
  rw [hshift, List.map_map]
  apply List.map_congr_left
  intro i _
  simp [Function.comp, List.drop_drop]

theorem splitIntoChunks_flatten {cs : Nat} (h : 1 ≤ cs) (data : List Nat) :
    (splitIntoChunks data cs).flatten = data := by
  rcases eq_or_ne data [] with rfl | hd
  · rw [splitIntoChunks_nil h]; rfl
  · rw [splitIntoChunks_cons h hd]
    rw [List.flatten_cons, splitIntoChunks_flatten h (data.drop cs)]
    exact List.take_append_drop cs data
termination_by data.length
decreasing_by
  simp only [List.length_drop]
  have := List.length_pos.mpr hd
  omega

theorem splitIntoChunks_length (data : List Nat) (cs : Nat) :
    (splitIntoChunks data cs).length = (data.length + cs - 1) / cs := by
  unfold splitIntoChunks
  simp [List.length_range']

theorem splitIntoChunks_getD {data : List Nat} {cs j : Nat}
    (hj : j < (data.length + cs - 1) / cs) :
    (splitIntoChunks data cs).getD j [] = (data.drop (cs * j)).take cs := by
  have hj' : j < (splitIntoChunks data cs).length := by
    rw [splitIntoChunks_length]; exact hj
  rw [List.getD_eq_getElem _ _ hj']
  unfold splitIntoChunks
  simp only [List.getElem_map, List.getElem_range']
  simp

/-! ## Claim C3: chunking round-trip -/

/-- C3: for any chunk size at least 1 (512 in `setMode`), `_splitIntoChunks`
cuts the packet into consecutive slices whose concatenation is the packet,
every chunk is at most `cs` long, every chunk except possibly the last is
exactly `cs` long, and no chunk is empty unless the packet is empty. -/
theorem C3_chunking (data : List Nat) (cs : Nat) (h : 1 ≤ cs) :
    (splitIntoChunks data cs).flatten = data ∧
    (∀ c ∈ splitIntoChunks data cs, c.length ≤ cs) ∧
    (∀ j, j + 1 < (splitIntoChunks data cs).length →
      ((splitIntoChunks data cs).getD j []).length = cs) ∧
    (data ≠ [] → ∀ c ∈ splitIntoChunks data cs, c ≠ []) := by
  refine ⟨splitIntoChunks_flatten h data, ?_, ?_, ?_⟩
  · intro c hc
    unfold splitIntoChunks at hc
    obtain ⟨i, _, rfl⟩ := List.mem_map.mp hc
    exact le_trans (List.length_take_le cs _) (le_refl cs)
  · intro j hj
    rw [splitIntoChunks_length] at hj
    rw [splitIntoChunks_getD (by omega)]
    have hb : (j + 2) * cs ≤ data.length + cs - 1 :=
      (Nat.le_div_iff_mul_le h).mp (by omega)
    have : cs ≤ data.length - cs * j := by
      have : (j + 2) * cs = cs * j + cs + cs := by ring
      omega
    simp [List.length_take, List.length_drop]
    omega
  · intro hd c hc
    have hlen : 1 ≤ data.length := List.length_pos.mpr hd
    unfold splitIntoChunks at hc
    obtain ⟨i, hi, rfl⟩ := List.mem_map.mp hc
    rw [List.mem_range'] at hi
    obtain ⟨j, hj, rfl⟩ := hi
    have hb : (j + 1) * cs ≤ data.length + cs - 1 :=
      (Nat.le_div_iff_mul_le h).mp (by omega)
    have hcsj : cs * j < data.length := by
      have : (j + 1) * cs = cs * j + cs := by ring
      omega
    intro hnil
    have := congrArg List.length hnil
    simp [List.length_take, List.length_drop] at this
    omega

/-- Witness for C3 on a concrete 5-byte packet with chunk size 2. -/
theorem C3_chunking_witness :
    1 ≤ 2 ∧
    ((splitIntoChunks [10, 20, 30, 40, 50] 2).flatten = [10, 20, 30, 40, 50] ∧
    (∀ c ∈ splitIntoChunks [10, 20, 30, 40, 50] 2, c.length ≤ 2) ∧
    (∀ j, j + 1 < (splitIntoChunks [10, 20, 30, 40, 50] 2).length →
      ((splitIntoChunks [10, 20, 30, 40, 50] 2).getD j []).length = 2) ∧
    ([10, 20, 30, 40, 50] ≠ ([] : List Nat) →
      ∀ c ∈ splitIntoChunks [10, 20, 30, 40, 50] 2, c ≠ [])) :=
  ⟨by decide, C3_chunking [10, 20, 30, 40, 50] 2 (by decide)⟩

/-! ## Claims C1 and C5: glyph count versus number of blocks -/

/-- Helper: when no block contains the separator pattern, the stored 2-byte
glyph-count field decodes to the number of blocks. -/
theorem glyphCountField (blocks : List (List Nat)) (cfg : TextConfig)
    {p : List Nat}
    (hs : ∀ b ∈ blocks, containsSep b = false)
    (hp : buildStringPacket cfg (serializeBlocks blocks) = some p) :
    fromBytesLE ((p.drop 16).take 2) = blocks.length := by
  obtain ⟨md, heq, hmd, hlen14, hnc, hT, hL, hp'⟩ := buildStringPacket_some hp
  obtain ⟨f1, f2, f3, f4, f5⟩ := packetFields _ _ _ _ _ hp'
  rw [f4, hmd]
  simp only [List.append_assoc]
  rw [List.take_left' (toBytesLE_length 2 _)]
  rw [fromBytesLE_toBytesLE 2 _ (by omega)]
  exact countSep_serializeBlocks blocks hs

/-- C1 (amended): if the separator pattern `05 FF FF FF` does not occur
inside any bitmap block, the 2-byte little-endian glyph-count field written
into the Text Metadata equals the number of Bitmap Blocks.  (The unamended
claim — for every stream — fails: a block whose pixel data contains the
pattern inflates the substring count, see the counterexample.) -/
theorem C1_glyph_count (blocks : List (List Nat)) (cfg : TextConfig)
    {p : List Nat}
    (hs : ∀ b ∈ blocks, containsSep b = false)
    (hp : buildStringPacket cfg (serializeBlocks blocks) = some p) :
    fromBytesLE ((p.drop 16).take 2) = blocks.length :=
  glyphCountField blocks cfg hs hp

/-- Witness for C1 on a single all-zero block. -/
theorem C1_glyph_count_witness :
    (∀ b ∈ [List.replicate (64 : Nat) (0 : Nat)], containsSep b = false) ∧
    buildStringPacket cfg0 (serializeBlocks [List.replicate 64 0]) =
      some ((buildStringPacket cfg0 (serializeBlocks [List.replicate 64 0])).getD []) ∧
    fromBytesLE ((((buildStringPacket cfg0
        (serializeBlocks [List.replicate 64 0])).getD []).drop 16).take 2) =
      [List.replicate (64 : Nat) (0 : Nat)].length :=
  ⟨by decide, by rfl, C1_glyph_count [List.replicate 64 0] cfg0 (by decide) (by rfl)⟩

/-- A character cell whose rendered pixels make the packed block start with
the bytes `05 FF FF FF`: in row 0 the pixels at columns 0, 2 and 8..15 are
on (bytes `05 FF`), and all of row 1 is on (bytes `FF FF`). -/
def badCells : Nat → Nat → Nat → Nat := fun _ x y =>
  if y = 0 ∧ (x = 0 ∨ x = 2 ∨ 8 ≤ x) then 1
  else if y = 1 then 1 else 0

/-- The serialized bitmap stream the rasterizer produces for one such
16-pixel-wide cell. -/
def badStream : List Nat := (StringToBitmaps badCells 1 16 32).getD []

/-- Counterexample to C1 as stated: the rasterizer emits exactly one block
for this strip, but the separator pattern also occurs inside the block, so
the substring count — and the stored glyph-count field — is 2, not 1. -/
theorem C1_glyph_count_counterexample :
    StringToBitmaps badCells 1 16 32 = some badStream ∧
    (stringBlocks (fullImage badCells 1 16 (16 - (32 : Int) / 2))
        (paddedWidth (1 * 16))).length = 1 ∧
    countSep badStream = 2 ∧
    buildStringPacket cfg0 badStream ≠ none ∧
    fromBytesLE ((((buildStringPacket cfg0 badStream).getD []).drop 16).take 2)
      ≠ 1 := by decide

/-- C5 (amended): for packets framed from a stream of 64-byte blocks none
of which contains the separator pattern, the 4-byte body-length field
equals `14 + 4 * glyph_count + 64 * glyph_count` where `glyph_count` is the
value stored in the Text Metadata.  (Unamended the claim fails together
with C1, see the counterexample.) -/
theorem C5_body_length (blocks : List (List Nat)) (cfg : TextConfig)
    {p : List Nat}
    (h64 : ∀ b ∈ blocks, b.length = 64)
    (hs : ∀ b ∈ blocks, containsSep b = false)
    (hp : buildStringPacket cfg (serializeBlocks blocks) = some p) :
    fromBytesLE ((p.drop 5).take 4) =
      14 + 4 * fromBytesLE ((p.drop 16).take 2) +
        64 * fromBytesLE ((p.drop 16).take 2) := by
  have hgc : fromBytesLE ((p.drop 16).take 2) = blocks.length :=
    glyphCountField blocks cfg hs hp
  obtain ⟨md, heq, hmd, hlen14, hnc, hT, hL, hp'⟩ := buildStringPacket_some hp
  obtain ⟨f1, f2, f3, f4, f5⟩ := packetFields _ _ _ _ _ hp'
  rw [f2, fromBytesLE_toBytesLE 4 _ (by omega), hgc]
  have hsl := serializeBlocks_length blocks h64
  simp only [List.length_append] at hT ⊢
  omega

/-- Witness for C5 on a single all-zero block: body length 82 = 14 + 4 + 64. -/
theorem C5_body_length_witness :
    (∀ b ∈ [List.replicate (64 : Nat) (0 : Nat)], b.length = 64) ∧
    (∀ b ∈ [List.replicate (64 : Nat) (0 : Nat)], containsSep b = false) ∧
    fromBytesLE ((((buildStringPacket cfg0
        (serializeBlocks [List.replicate 64 0])).getD []).drop 5).take 4) =
      14 + 4 * fromBytesLE ((((buildStringPacket cfg0
        (serializeBlocks [List.replicate 64 0])).getD []).drop 16).take 2) +
        64 * fromBytesLE ((((buildStringPacket cfg0
        (serializeBlocks [List.replicate 64 0])).getD []).drop 16).take 2) :=
  ⟨by decide, by decide,
   C5_body_length [List.replicate 64 0] cfg0 (by decide) (by decide) (by rfl)⟩

/-- Counterexample to C5 as stated: for the packet framed from `badStream`
(one 64-byte block, body length 82) the stored glyph count is 2, so
`14 + 4 * glyph_count + 64 * glyph_count = 150 ≠ 82`. -/
theorem C5_body_length_counterexample :
    buildStringPacket cfg0 badStream ≠ none ∧
    fromBytesLE ((((buildStringPacket cfg0 badStream).getD []).drop 5).take 4)
      ≠ 14 + 4 * fromBytesLE ((((buildStringPacket cfg0 badStream).getD
          []).drop 16).take 2) +
        64 * fromBytesLE ((((buildStringPacket cfg0 badStream).getD
          []).drop 16).take 2) := by decide

/-! ## Claim C4: bitmap packing -/

/-- One row iteration (`for x in range(16)`) of `_ConstructBitMap`. -/
def rowStep (image : Nat → Nat → Nat) (st : Nat × List Nat) (y : Nat) :
    Nat × List Nat :=
  (List.range 16).foldl (fun st x =>
    let byte := if x % 8 = 0 then 0 else st.1
    let byte := byte ||| ((image x y &&& 1) <<< (x % 8))
    if x % 8 = 7 then (byte, st.2 ++ [byte]) else (byte, st.2)) st

/-- The byte a row loop accumulates from 8 pixels `g 0 .. g 7`,
least-significant-bit first. -/
def packByte (g : Nat → Nat) : Nat :=
  (List.range 8).foldl (fun b k => b ||| ((g k &&& 1) <<< k)) 0

theorem ConstructBitMap_eq_foldl (image : Nat → Nat → Nat) :
    ConstructBitMap image = ((List.range 32).foldl (rowStep image) (0, [])).2 := rfl

theorem rowStep_eq (image : Nat → Nat → Nat) (st : Nat × List Nat) (y : Nat) :
    rowStep image st y =
      (packByte (fun k => image (8 + k) y),
       (st.2 ++ [packByte (fun k => image k y)]) ++
         [packByte (fun k => image (8 + k) y)]) := rfl

theorem rowStep_foldl (image : Nat → Nat → Nat) (ys : List Nat) :
    ∀ st : Nat × List Nat,
      (ys.foldl (rowStep image) st).2 =
        st.2 ++ (ys.map (fun y =>
          [packByte (fun k => image k y),
           packByte (fun k => image (8 + k) y)])).flatten := by
  induction ys with
  | nil => intro st; simp
  | cons y ys ih =>
    intro st
    rw [List.foldl_cons, ih, rowStep_eq]
    simp [List.append_assoc]

/-- `_ConstructBitMap` emits, row by row from top to bottom, the two packed
bytes of each of the 32 rows. -/
theorem ConstructBitMap_eq (image : Nat → Nat → Nat) :
    ConstructBitMap image =
      ((List.range 32).map (fun y =>
        [packByte (fun k => image k y),
         packByte (fun k => image (8 + k) y)])).flatten := by
  have h := rowStep_foldl image (List.range 32) (0, [])
  rw [List.nil_append] at h
  exact (ConstructBitMap_eq_foldl image).trans h

theorem flatten_pairs (f g : Nat → Nat) : ∀ n : Nat,
    ((List.range n).map (fun y => [f y, g y])).flatten =
      (List.range (2 * n)).map
        (fun i => if i % 2 = 0 then f (i / 2) else g (i / 2)) := by
  intro n
  induction n with
  | zero => rfl
  | succ n ih =>
    rw [List.range_succ, List.map_append, List.flatten_append, ih]
    have h2 : 2 * (n + 1) = (2 * n + 1) + 1 := by ring
    rw [h2, List.range_succ, List.range_succ, List.map_append, List.map_append]
    have e0 : (2 * n) % 2 = 0 := by omega
    have e1 : (2 * n) / 2 = n := by omega
    have e2 : (2 * n + 1) % 2 = 1 := by omega
    have e3 : (2 * n + 1) / 2 = n := by omega
    simp [e0, e1, e2, e3]

theorem ConstructBitMap_length (image : Nat → Nat → Nat) :
    (ConstructBitMap image).length = 64 := by
  rw [ConstructBitMap_eq, flatten_pairs]
  simp

theorem ConstructBitMap_getD (image : Nat → Nat → Nat) {y j : Nat}
    (hy : y < 32) (hj : j < 2) :
    (ConstructBitMap image).getD (2 * y + j) 0 =
      packByte (fun k => image (8 * j + k) y) := by
  rw [ConstructBitMap_eq, flatten_pairs]
  have hidx : 2 * y + j < 2 * 32 := by omega
  rw [List.getD_eq_getElem _ _ (by simpa using hidx)]
  rw [List.getElem_map, List.getElem_range]
  interval_cases j
  · have h1 : (2 * y + 0) % 2 = 0 := by omega
    have h2 : (2 * y + 0) / 2 = y := by omega
    simp [h1, h2]
  · have h1 : (2 * y + 1) % 2 = 1 := by omega
    have h2 : (2 * y + 1) / 2 = y := by omega
    simp [h1, h2]

theorem testBit_and_one {m d : Nat} (hd : 1 ≤ d) :
    (m &&& 1).testBit d = false := by
  apply Nat.testBit_eq_false_of_lt
  calc m &&& 1 ≤ 1 := Nat.and_le_right
  _ < 2 ^ d := Nat.one_lt_two_pow (by omega)

theorem packByte_testBit (g : Nat → Nat) {k : Nat} (hk : k < 8) :
    (packByte g).testBit k = (g k).testBit 0 := by
  have hexp : packByte g =
      0 ||| ((g 0 &&& 1) <<< 0) ||| ((g 1 &&& 1) <<< 1) |||
      ((g 2 &&& 1) <<< 2) ||| ((g 3 &&& 1) <<< 3) ||| ((g 4 &&& 1) <<< 4) |||
      ((g 5 &&& 1) <<< 5) ||| ((g 6 &&& 1) <<< 6) ||| ((g 7 &&& 1) <<< 7) := rfl
  have hbit : ∀ m : Nat, (m &&& 1).testBit 0 = m.testBit 0 := by
    intro m
    rw [Nat.testBit_and]
    have : Nat.testBit 1 0 = true := rfl
    rw [this, Bool.and_true]
  have hterm : ∀ (v j d : Nat),
      ((v &&& 1) <<< j).testBit d = if j = d then v.testBit 0 else false := by
    intro v j d
    rw [Nat.testBit_shiftLeft]
    rcases Nat.lt_trichotomy j d with h | h | h
    · rw [if_neg (by omega), testBit_and_one (by omega)]
      simp
    · subst h
      rw [if_pos rfl, Nat.sub_self, hbit]
      have hdd : j ≥ j := le_refl j
      simp [hdd]
    · rw [if_neg (by omega)]
      have hnd : ¬(d ≥ j) := by omega
      simp [hnd]
  rw [hexp]
  interval_cases k <;>
    · simp only [Nat.testBit_or, hterm, Nat.zero_testBit]
      norm_num

theorem stringBlocksLoop_length (image : Nat → Nat → Nat) :
    ∀ (n left : Nat), (stringBlocksLoop image n left).length = n := by
  intro n
  induction n with
  | zero => intro left; rfl
  | succ n ih => intro left; simp [stringBlocksLoop, ih]

theorem stringBlocksLoop_mem (image : Nat → Nat → Nat) :
    ∀ (n left : Nat) (b : List Nat), b ∈ stringBlocksLoop image n left →
      ∃ l, b = ConstructBitMap (fun x y => image (l + x) y) := by
  intro n
  induction n with
  | zero => intro left b hb; simp [stringBlocksLoop] at hb
  | succ n ih =>
    intro left b hb
    rw [stringBlocksLoop] at hb
    rcases List.mem_cons.mp hb with hb1 | hb2
    · exact ⟨left, hb1⟩
    · exact ih _ b hb2

theorem stringBlocksLoop_getD (image : Nat → Nat → Nat) :
    ∀ (n left i : Nat), i < n →
      (stringBlocksLoop image n left).getD i [] =
        ConstructBitMap (fun x y => image (left + 16 * i + x) y) := by
  intro n
  induction n with
  | zero => intro left i hi; omega
  | succ n ih =>
    intro left i hi
    cases i with
    | zero =>
      show ConstructBitMap (fun x y => image (left + x) y) = _
      congr 1
    | succ i =>
      show (stringBlocksLoop image n (left + 16)).getD i [] = _
      rw [ih (left + 16) i (by omega)]
      congr 1
      funext x y
      congr 1
      omega

/-- C4: on a strip whose width is a multiple of 16, the packer emits
exactly `w / 16` blocks of exactly 64 bytes each (whatever the pixels are),
and bit `k` of byte `2 * y + j` of block `i` is set exactly when the pixel
in column `byteIndex * 8 + k` of row `y` of that 16-wide window is on
(LSB-first, rows top to bottom). -/
theorem C4_bitmap_packing (image : Nat → Nat → Nat) (w : Nat) (hw : 16 ∣ w) :
    (stringBlocks image w).length = w / 16 ∧
    (∀ b ∈ stringBlocks image w, b.length = 64) ∧
    (∀ i y j k, i < w / 16 → y < 32 → j < 2 → k < 8 →
      (Nat.testBit (((stringBlocks image w).getD i []).getD (2 * y + j) 0) k =
          true ↔
        image (16 * i + (8 * j + k)) y &&& 1 = 1)) := by
  have hn : (w + 15) / 16 = w / 16 := by omega
  refine ⟨?_, ?_, ?_⟩
  · unfold stringBlocks
    rw [stringBlocksLoop_length, hn]
  · intro b hb
    obtain ⟨l, hb1⟩ := stringBlocksLoop_mem image _ _ b hb
    rw [hb1]
    exact ConstructBitMap_length _
  · intro i y j k hi hy hj hk
    unfold stringBlocks
    rw [stringBlocksLoop_getD image _ 0 i (by omega),
        ConstructBitMap_getD _ hy hj, packByte_testBit _ hk]
    have harg : 0 + 16 * i + (8 * j + k) = 16 * i + (8 * j + k) := by omega
    rw [harg, Nat.testBit_zero, Nat.and_one_is_mod]
    simp

/-- Witness for C4 on a 16-pixel-wide strip with a single pixel on at
column 3 of row 0. -/
theorem C4_bitmap_packing_witness :
    (16 ∣ 16) ∧
    ((stringBlocks (fun x y => if x = 3 ∧ y = 0 then 1 else 0) 16).length =
        16 / 16 ∧
    (∀ b ∈ stringBlocks (fun x y => if x = 3 ∧ y = 0 then 1 else 0) 16,
        b.length = 64) ∧
    (∀ i y j k, i < 16 / 16 → y < 32 → j < 2 → k < 8 →
      (Nat.testBit (((stringBlocks (fun x y => if x = 3 ∧ y = 0 then 1 else 0)
            16).getD i []).getD (2 * y + j) 0) k = true ↔
        (fun x y => if x = 3 ∧ y = 0 then 1 else 0) (16 * i + (8 * j + k)) y
          &&& 1 = 1))) :=
  ⟨by decide,
   C4_bitmap_packing (fun x y => if x = 3 ∧ y = 0 then 1 else 0) 16 (by decide)⟩

/-! ## Claim C6: composite strip width -/

/-- C6: for a non-empty text of `n` characters with cell width `W`, the
rasterizer builds its strip at width `paddedWidth (n * W)`, which equals
`⌈n * W / 16⌉ * 16` and is divisible by 16, and every padding column at or
beyond `n * W` is all-background. -/
theorem C6_strip_width (cells : Nat → Nat → Nat → Nat) (n W ch : Nat)
    (hn : 1 ≤ n) :
    StringToBitmaps cells n W ch =
      some (serializeBlocks (stringBlocks
        (fullImage cells n W (16 - (ch : Int) / 2)) (paddedWidth (n * W)))) ∧
    paddedWidth (n * W) = (n * W + 15) / 16 * 16 ∧
    16 ∣ paddedWidth (n * W) ∧
    (∀ x y : Nat, n * W ≤ x →
      fullImage cells n W (16 - (ch : Int) / 2) x y = 0) := by
  refine ⟨?_, ?_, ?_, ?_⟩
  · unfold StringToBitmaps
    rw [if_neg (by omega)]
  · unfold paddedWidth
    generalize n * W = t
    omega
  · unfold paddedWidth
    generalize n * W = t
    omega
  · intro x y hx
    unfold fullImage
    rw [if_neg]
    rintro ⟨h1, -, -⟩
    omega

/-- Witness for C6: one character of cell width 10 pads the strip to 16. -/
theorem C6_strip_width_witness :
    1 ≤ 1 ∧
    (StringToBitmaps (fun _ _ _ => 0) 1 10 20 =
      some (serializeBlocks (stringBlocks
        (fullImage (fun _ _ _ => 0) 1 10 (16 - ((20 : Nat) : Int) / 2))
        (paddedWidth (1 * 10)))) ∧
    paddedWidth (1 * 10) = (1 * 10 + 15) / 16 * 16 ∧
    16 ∣ paddedWidth (1 * 10) ∧
    (∀ x y : Nat, 1 * 10 ≤ x →
      fullImage (fun _ _ _ => 0) 1 10 (16 - ((20 : Nat) : Int) / 2) x y = 0)) :=
  ⟨by decide, C6_strip_width (fun _ _ _ => 0) 1 10 20 (by decide)⟩

/-! ## Claim C8: the empty string fails before framing -/

/-- C8: for the empty input string the rasterizer fails (the
`char_images[0]` access raises) before any packet framing, and `setMode`
returns the failure outcome — no zero-block packet is ever produced. -/
theorem C8_empty_text_fails (cells : Nat → Nat → Nat → Nat)
    (char_width char_height : Nat) (cfg : TextConfig)
    (connectOk : Bool) (send : List Nat → Bool) :
    StringToBitmaps cells 0 char_width char_height = none ∧
    setMode cfg cells 0 char_width char_height connectOk send = none :=
  ⟨rfl, rfl⟩

/-! ## Claim C9: all-or-nothing outcome of `setMode` -/

theorem sentChunks_all (send : List Nat → Bool) :
    ∀ l : List (List Nat), l.all send = true → sentChunks send l = l := by
  intro l
  induction l with
  | nil => intro _; rfl
  | cons c t ih =>
    intro h
    simp only [List.all_cons, Bool.and_eq_true] at h
    unfold sentChunks
    simp [h.1, ih h.2]

/-- C9: every `setMode` call returns either the complete encoded packet —
in which case rasterization and framing succeeded and every 512-byte chunk
was handed to the transport in order, reassembling to exactly that packet —
or the single failure outcome; no partial result exists. -/
theorem C9_all_or_nothing (cfg : TextConfig) (cells : Nat → Nat → Nat → Nat)
    (n char_width char_height : Nat) (connectOk : Bool)
    (send : List Nat → Bool) :
    (∃ p, setMode cfg cells n char_width char_height connectOk send = some p ∧
      ∃ bm, StringToBitmaps cells n char_width char_height = some bm ∧
        buildStringPacket cfg bm = some p ∧
        sentChunks send (splitIntoChunks p 512) = splitIntoChunks p 512 ∧
        (splitIntoChunks p 512).flatten = p) ∨
    setMode cfg cells n char_width char_height connectOk send = none := by
  rcases hrb : StringToBitmaps cells n char_width char_height with _ | bm
  · right
    simp [setMode, hrb]
  · rcases hbp : buildStringPacket cfg bm with _ | p
    · right
      simp [setMode, hrb, hbp]
    · cases connectOk with
      | false =>
        right
        simp [setMode, hrb, hbp]
      | true =>
        rcases hall : (splitIntoChunks p 512).all send with _ | _
        · right
          simp [setMode, hrb, hbp, hall]
        · left
          refine ⟨p, ?_, bm, rfl, hbp, sentChunks_all send _ hall,
            splitIntoChunks_flatten (by norm_num) p⟩
          simp [setMode, hrb, hbp, hall]

end Idotmatrix
